import Mathlib

/-!
Verification development for the handbook retrieval-augmented-answering
pipeline (mini-capstone: `ingest.py`, `index.py`, `ask.py`, `score.py`).

Modelling conventions:
* Python `str` is modelled as `List Char` (`Str`); text files are read as
  UTF-8 and newlines are modelled as the single character `'\n'`.
* Floating-point vectors and similarity arithmetic are not modelled
  bit-for-bit: similarity values are abstracted as rationals, and the
  embedding / cosine computations are taken as opaque parameters wherever a
  theorem does not depend on their numeric content.
* The network backends (Ollama chat and embedding calls) are modelled as
  function parameters; a fallible backend returns `Except`.
* Python loops are translated into structural recursions; `while` loops
  that shrink their data get an explicit fuel argument bounded by the
  initial length, which the original loop never exhausts.
-/

namespace Capstone

abbrev Str := List Char

abbrev Vec := List ℚ

/-- Whitespace characters recognised by Python's `str.strip` /
regex `\s` on the ASCII range. -/
def isPySpace (c : Char) : Bool :=
  c = ' ' || c = '\t' || c = '\n' || c = '\r' || c = '\x0b' || c = '\x0c'

/-- Python `str.strip()`: drop leading and trailing whitespace. -/
def pyStrip (s : Str) : Str :=
  ((s.dropWhile isPySpace).reverse.dropWhile isPySpace).reverse

/-- Join a list of strings with a separator (Python `sep.join(parts)`). -/
def joinSep (sep : Str) : List Str → Str
  | [] => []
  | [x] => x
  | x :: xs => x ++ sep ++ joinSep sep xs

def nl1 : Str := ['\n']

def nl2 : Str := ['\n', '\n']

/-- Concatenation of a list of lists. -/
def catLists {α : Type} : List (List α) → List α
  | [] => []
  | g :: gs => g ++ catLists gs

/-- Does `s` start with `needle`? -/
def subAt : Str → Str → Bool
  | [], _ => true
  | _ :: _, [] => false
  | a :: as, b :: bs => a == b && subAt as bs

/-- Python's substring containment `needle in s`. -/
def containsSub (needle : Str) : Str → Bool
  | [] => subAt needle []
  | c :: rest => subAt needle (c :: rest) || containsSub needle rest

/-- Worker for `pySplitlines`; `acc` holds the current line reversed. -/
def pySplitlinesAux : Str → Str → List Str
  | [], acc => if acc = [] then [] else [acc.reverse]
  | c :: cs, acc =>
      if c = '\n' then acc.reverse :: pySplitlinesAux cs []
      else pySplitlinesAux cs (c :: acc)

/-- Python `str.splitlines()` restricted to `'\n'` line breaks: a trailing
newline does not produce a final empty line. -/
def pySplitlines (s : Str) : List Str := pySplitlinesAux s []

/-- Worker for `splitOnNN`; splits at each non-overlapping occurrence of
`"\n\n"`, scanning left to right. `acc` holds the current segment reversed. -/
def splitOnNNAux : Str → Str → List Str
  | [], acc => [acc.reverse]
  | [c], acc => [(c :: acc).reverse]
  | c :: d :: cs, acc =>
      if c = '\n' ∧ d = '\n' then acc.reverse :: splitOnNNAux cs []
      else splitOnNNAux (d :: cs) (c :: acc)

/-- Python `text.split("\n\n")`. -/
def splitOnNN (s : Str) : List Str := splitOnNNAux s []

/-- The loop body of `normalize_newlines` (ingest.py): keep non-blank lines,
keep only the first line of every streak of blank lines (as an empty line). -/
def normLoop : List Str → Nat → List Str
  | [], _ => []
  | l :: ls, streak =>
      if pyStrip l = [] then
        if streak = 0 then [] :: normLoop ls 1 else normLoop ls (streak + 1)
      else l :: normLoop ls 0

/-- `normalize_newlines` (ingest.py): collapse runs of 2+ blank lines down to
exactly one blank line, rejoining with `"\n"`. -/
def normalizeNewlines (text : Str) : Str :=
  joinSep nl1 (normLoop (pySplitlines text) 0)

/-- The paragraph extraction `[p.strip() for p in text.split("\n\n") if p.strip()]`
used in `iter_section_chunks` (ingest.py). -/
def paragraphsOfText (text : Str) : List Str :=
  ((splitOnNN text).map pyStrip).filter (fun p => p ≠ [])

/-- The greedy packing loop of `_split_paragraphs_into_chunks` (ingest.py),
returning the list of paragraph groups that the Python generator joins with
`"\n\n"`.  `current` is the pending group, `curLen` the running `cur_len`
book-keeping value of the source (`len(p) + 2` per appended paragraph). -/
def chunkGroupsAux (maxChars : Nat) : List Str → List Str → Nat → List (List Str)
  | [], current, _ => if current = [] then [] else [current]
  | p :: ps, current, curLen =>
      if current ≠ [] ∧ maxChars < curLen + p.length + 2 then
        current :: chunkGroupsAux maxChars ps [p] p.length
      else
        chunkGroupsAux maxChars ps (current ++ [p]) (curLen + p.length + 2)

def chunkGroups (paragraphs : List Str) (maxChars : Nat) : List (List Str) :=
  chunkGroupsAux maxChars paragraphs [] 0

/-- `_split_paragraphs_into_chunks` (ingest.py): each yielded chunk is the
`"\n\n"`-join of one packed paragraph group. -/
def splitParagraphsIntoChunks (paragraphs : List Str) (maxChars : Nat) : List Str :=
  (chunkGroups paragraphs maxChars).map (joinSep nl2)

def isRomanChar (c : Char) : Bool :=
  c = 'I' || c = 'V' || c = 'X' || c = 'L' || c = 'C' || c = 'D' || c = 'M'

/-- `ROMAN_HEADER_RE.match(stripped)` (ingest.py): the anchored pattern
`[IVXLCDM]+\.\s+.+` applied to an already stripped line.  Returns the raw
`title` group.  Because the character class cannot match `'.'` and `\.`
cannot match a Roman character, backtracking never changes the maximal-run
reading used here. -/
def romanHeaderMatch (s : Str) : Option Str :=
  let roman := s.takeWhile isRomanChar
  let rest := s.drop roman.length
  if roman = [] then none
  else
    match rest with
    | '.' :: afterDot =>
        let ws := afterDot.takeWhile isPySpace
        let tail := afterDot.drop ws.length
        if ws = [] || tail = [] then none else some tail
    | _ => none

/-- `MULTI_SECTION_FILES` (ingest.py). -/
def multiSectionFiles : List Str :=
  ["student_conduct_code.txt", "sexual_misconduct_title_ix.txt",
   "activities_and_organizations.txt", "living_on_campus.txt"].map String.toList

/-- Index of the last `'.'` in `s`, if any. -/
def lastDotIdx (s : Str) : Option Nat :=
  (List.range s.length).foldl
    (fun acc i => if s.getD i ' ' = '.' then some i else acc) none

/-- `os.path.splitext(filename)[0]` for a plain file name (no path
separators): cut at the last dot unless only dots precede it. -/
def splitextRoot (s : Str) : Str :=
  match lastDotIdx s with
  | none => s
  | some i => if (s.take i).all (fun c => c = '.') then s else s.take i

/-- Worker for `pyTitle`: `prevCased` records whether the previous character
was a letter. -/
def pyTitleAux : Str → Bool → Str
  | [], _ => []
  | c :: cs, prevCased =>
      (if c.isAlpha then (if prevCased then c.toLower else c.toUpper) else c)
        :: pyTitleAux cs c.isAlpha

/-- Python `str.title()` (ASCII letters). -/
def pyTitle (s : Str) : Str := pyTitleAux s false

/-- `os.path.splitext(filename)[0].replace("_", " ").title()` (ingest.py). -/
def fileBaseTitle (filename : Str) : Str :=
  pyTitle ((splitextRoot filename).map (fun c => if c = '_' then ' ' else c))

structure ChunkRec where
  chunk_id : Str
  section_title : Str
  source_file : Str
  url : Str
  text : Str
  deriving DecidableEq

structure QuestionRec where
  question_id : Str
  chunk_id : Str
  section_title : Str
  question : Str
  deriving DecidableEq

/-- The section-flush step of `iter_section_chunks` (ingest.py): join the
accumulated lines, strip, split into paragraphs, pack into chunks, and pair
every chunk with the section title.  Used both at a new header and at end of
input; an all-whitespace section yields nothing. -/
def flushSection (title : Str) (lines : List Str) (maxChars : Nat) :
    List (Str × Str) :=
  let sectionText := pyStrip (joinSep nl1 lines)
  if sectionText = [] then []
  else (splitParagraphsIntoChunks (paragraphsOfText sectionText) maxChars).map
    (fun c => (title, c))

/-- The line scanner of `iter_section_chunks` for multi-section files
(ingest.py): on a Roman header, flush the previous section (only when a title
is already set and lines were collected) and start a new one excluding the
header line; otherwise accumulate the line.  At end of input the last section
is flushed under the current title, or the filename-derived base title if no
header was ever seen. -/
def multiLoop (baseTitle : Str) (maxChars : Nat) :
    List Str → Option Str → List Str → List (Str × Str)
  | [], currentTitle, currentLines =>
      if currentLines = [] then []
      else
        let title := match currentTitle with
          | some t => if t = [] then baseTitle else t
          | none => baseTitle
        flushSection title currentLines maxChars
  | line :: rest, currentTitle, currentLines =>
      match romanHeaderMatch (pyStrip line) with
      | some rawTitle =>
          (match currentTitle with
           | some t =>
               if t ≠ [] ∧ currentLines ≠ [] then flushSection t currentLines maxChars
               else []
           | none => []) ++
          multiLoop baseTitle maxChars rest (some (pyStrip rawTitle)) []
      | none =>
          multiLoop baseTitle maxChars rest currentTitle (currentLines ++ [line])

/-- `iter_section_chunks(text, filename, max_chars)` (ingest.py), as the list
of `(section_title, chunk_text)` pairs it yields. -/
def iterSectionChunks (text : Str) (filename : Str) (maxChars : Nat) :
    List (Str × Str) :=
  let text := normalizeNewlines text
  let baseTitle := fileBaseTitle filename
  if multiSectionFiles.contains filename then
    multiLoop baseTitle maxChars (pySplitlines text) none []
  else
    (splitParagraphsIntoChunks (paragraphsOfText text) maxChars).map
      (fun c => (baseTitle, c))

/-- `N_QUESTIONS_PER_CHUNK` (index.py). -/
def nQuestionsPerChunk : Nat := 3

/-- `EMBED_NORMALIZED` (index.py). -/
def embedNormalized : Bool := false

/-- `STOPWORDS` (index.py). -/
def stopwords : List Str :=
  ["the", "and", "or", "a", "an", "of", "to", "in", "for", "on",
   "at", "by", "is", "are", "be", "this", "that", "it", "with",
   "as", "from", "about",
   "what", "which", "who", "whom", "when", "where", "why", "how",
   "can", "could", "would", "should", "may"].map String.toList

/-- Worker for `runsOf`: maximal runs of characters satisfying `p`;
`acc` holds the current run reversed. -/
def runsOfAux (p : Char → Bool) : Str → Str → List Str
  | [], acc => if acc = [] then [] else [acc.reverse]
  | c :: cs, acc =>
      if p c then runsOfAux p cs (c :: acc)
      else if acc = [] then runsOfAux p cs []
      else acc.reverse :: runsOfAux p cs []

/-- `re.findall` of a one-character-class-plus pattern: the maximal runs of
characters satisfying `p`, in order. -/
def runsOf (p : Char → Bool) (s : Str) : List Str := runsOfAux p s []

/-- `re.findall(r"\d+", s)` (index.py), ASCII digits. -/
def digitRuns (s : Str) : List Str := runsOf Char.isDigit s

/-- `_tokenize` (index.py): `re.findall(r"[A-Za-z]+", text.lower())` with
stopwords removed. -/
def tokenize (text : Str) : List Str :=
  (runsOf Char.isAlpha (text.map Char.toLower)).filter
    (fun t => ¬ stopwords.contains t)

/-- Distinct elements of a token list (Python `set(...)`), used only for
counting, so the retained order is irrelevant. -/
def distinctList : List Str → List Str
  | [] => []
  | x :: xs =>
      let r := distinctList xs
      if r.contains x then r else x :: r

/-- `len(set(_tokenize(question)) & set(_tokenize(chunk_text)))` (index.py). -/
def overlapCount (question chunkText : Str) : Nat :=
  ((distinctList (tokenize question)).filter
    (fun t => (tokenize chunkText).contains t)).length

/-- `_has_basic_overlap` (index.py). -/
def hasBasicOverlap (question chunkText : Str) (minOverlap : Nat) : Bool :=
  decide (minOverlap ≤ overlapCount question chunkText)

/-- `_question_supported_by_chunk` (index.py): every maximal digit run of the
question occurs verbatim in the chunk text (vacuously true when there are no
digits, matching the `if nums_q:` guard), and the content-word overlap is at
least 2. -/
def questionSupportedByChunk (question chunkText : Str) : Bool :=
  (digitRuns question).all (fun n => containsSub n chunkText) &&
  hasBasicOverlap question chunkText 2

/-- Characters tested by `line[0] in "-*0123456789"` (index.py). -/
def isBulletStart (c : Char) : Bool :=
  c = '-' || c = '*' || c.isDigit

/-- Characters removed by `line.lstrip("-*0123456789. ")` (index.py). -/
def isBulletStripChar (c : Char) : Bool :=
  isBulletStart c || c = '.' || c = ' '

/-- The `while line and line[0] in "-*0123456789": line = line.lstrip(...).strip()`
loop of `generate_questions_for_chunk` (index.py).  Each iteration removes at
least the first character, so fuel `line.length` is never exhausted. -/
def stripBulletsFuel : Nat → Str → Str
  | 0, line => line
  | fuel + 1, line =>
      match line with
      | [] => []
      | c :: _ =>
          if isBulletStart c then
            stripBulletsFuel fuel (pyStrip (line.dropWhile isBulletStripChar))
          else line

def stripBullets (line : Str) : Str := stripBulletsFuel line.length line

def natToStr (n : Nat) : Str := (Nat.repr n).toList

/-- The doc2query instruction prompt of `generate_questions_for_chunk`
(index.py), with the f-string holes filled in. -/
def doc2queryPrompt (sectionTitle chunkText : Str) : Str :=
  ("\nYou are helping build a search index for the Centre College Student Handbook.\n\nYou will be given:\n- the title of a handbook section\n- an excerpt from that section\n\nWrite ").toList
  ++ natToStr nQuestionsPerChunk ++
  (" different questions that a student, parent, incoming student, or staff member might ask when trying to understand how these rules apply in real situations.\n\nGuidelines:\n- Sound natural and conversational, not like a textbook.\n- Do NOT prefix question statements with roles, categories, labels, or markdown of any kind.\n- You may ask about fines or sanctions only when the excerpt clearly mentions them, but do NOT invent additional penalties not stated.\n- Do NOT describe fictional accidents, mishaps, or made-up stories involving friends \"sneaking\" into a violation.\n- Do NOT ask about personal struggles, emotional support, family issues, relationship problems, or everyday mishaps; focus only on policy-related questions that this excerpt can answer.\n- Do NOT ask about household chores or routine personal tasks; only ask about enforceable policies stated in the excerpt.\n- Do NOT refer to any meta-level structure; questions must be written as if the user only knows general campus topics, not the handbook text you were shown.\n- Do NOT introduce sensitive topics unless they are explicitly stated in the excerpt.\n- Do NOT copy long phrases from the excerpt; paraphrase in your own words.\n- Each question must focus on a different situation or angle.\n- Keep each question to one sentence.\n\n\nSection title: ").toList
  ++ sectionTitle ++ ("\n\nHandbook excerpt:\n").toList ++ chunkText ++ ("\n").toList

/-- `generate_questions_for_chunk` (index.py) with the chat backend passed as
a function: split the raw model output into stripped non-blank lines, strip
leading list markers, drop lines emptied by that, and truncate to
`N_QUESTIONS_PER_CHUNK`. -/
def generateQuestionsForChunk (chat : Str → Str) (sectionTitle chunkText : Str) :
    List Str :=
  let raw := chat (doc2queryPrompt sectionTitle chunkText)
  let lines := ((pySplitlines raw).map pyStrip).filter (fun l => l ≠ [])
  let questions := (lines.map stripBullets).filter (fun l => l ≠ [])
  if nQuestionsPerChunk < questions.length then questions.take nQuestionsPerChunk
  else questions

/-- The `for i, q in enumerate(clean)` record builder of `build_questions`
(index.py): `question_id = f"{chunk_id}_q{i}"`. -/
def numberQuestions (chunkId sectionTitle : Str) : Nat → List Str → List QuestionRec
  | _, [] => []
  | i, q :: qs =>
      { question_id := chunkId ++ ("_q").toList ++ natToStr i,
        chunk_id := chunkId, section_title := sectionTitle, question := q }
        :: numberQuestions chunkId sectionTitle (i + 1) qs

/-- `build_questions` (index.py): per chunk, generate candidates, strip them,
drop empty or unsupported ones, skip the chunk when none survive, truncate to
`N_QUESTIONS_PER_CHUNK`, and number the survivors. -/
def buildQuestions (chat : Str → Str) : List ChunkRec → List QuestionRec
  | [] => []
  | chunk :: rest =>
      let raw := generateQuestionsForChunk chat chunk.section_title chunk.text
      let clean := (raw.map pyStrip).filter
        (fun q => q ≠ [] && questionSupportedByChunk q chunk.text)
      (if clean = [] then []
       else numberQuestions chunk.chunk_id chunk.section_title 0
         (clean.take nQuestionsPerChunk))
      ++ buildQuestions chat rest

/-- `build_embeddings` (index.py) with the embedding backend passed as a
fallible function: embed every question in order; the first backend error
aborts the whole build (the Python exception propagates).  The
`EMBED_NORMALIZED` branch is dead code under the source configuration
(`EMBED_NORMALIZED = False`) and is not modelled. -/
def buildEmbeddings (embed : Str → Except Str Vec) : List QuestionRec → Except Str (List Vec)
  | [] => .ok []
  | q :: qs =>
      match embed q.question with
      | .error e => .error e
      | .ok v =>
          match buildEmbeddings embed qs with
          | .error e => .error e
          | .ok vs => .ok (v :: vs)

structure MetaRec where
  dimension : Nat
  normalized : Bool
  deriving DecidableEq

/-- The persisted artifacts of the `index/` directory that `index.py` reads
and writes: the chunk table, the synthetic-question table, the embedding
matrix, and the embedding metadata. -/
structure IndexStore where
  chunksFile : List ChunkRec
  questionsFile : List QuestionRec
  embeddingsFile : List Vec
  metaFile : Option MetaRec
  deriving DecidableEq

/-- `main` (index.py) as a transformer of the persisted store: load chunks,
build and save the questions, then build the embeddings and save matrix and
metadata.  The second component is the propagated error, if any; note that
`save_questions` has already run when `build_embeddings` raises. -/
def mainIndex (chat : Str → Str) (embed : Str → Except Str Vec)
    (store : IndexStore) : IndexStore × Option Str :=
  let questions := buildQuestions chat store.chunksFile
  let store1 := { store with questionsFile := questions }
  match buildEmbeddings embed questions with
  | .error e => (store1, some e)
  | .ok emb =>
      ({ store1 with
          embeddingsFile := emb,
          metaFile := some { dimension := (emb.headD []).length,
                             normalized := embedNormalized } }, none)

/-- `TOP_K_QUESTIONS` (ask.py). -/
def topKQuestions : Nat := 5

/-- `MAX_CHUNKS` (ask.py). -/
def maxChunksCfg : Nat := 1

/-- `MIN_SIMILARITY` (ask.py). -/
def minSimilarity : ℚ := 68 / 100

/-- Element access into the similarity vector (`sims[i]`); indices produced
by `argsortAsc` are always in range, so the default is never read. -/
def qAt (l : List ℚ) (i : Nat) : ℚ := l.getD i 0

/-- Insert index `i` into an index list sorted ascending by key `qAt l`,
after every already-present index of equal key. -/
def insertIdx (l : List ℚ) (i : Nat) : List Nat → List Nat
  | [] => [i]
  | j :: js => if qAt l i < qAt l j then i :: j :: js else j :: insertIdx l i js

/-- Behavioural model of `np.argsort(l)`: indices `0..n-1` sorted ascending
by their value, equal values keeping their original index order.  NumPy's
default `kind` makes no stability promise for ties; no theorem below about
the source relies on the tie order. -/
def argsortAsc (l : List ℚ) : List Nat :=
  (List.range l.length).foldl (fun acc i => insertIdx l i acc) []

/-- `chunks_by_id.get(chunk_id)` (ask.py): dictionary lookup, modelled over
an association list. -/
def lookupChunk (chunksById : List (Str × ChunkRec)) (k : Str) : Option ChunkRec :=
  (chunksById.find? (fun p => p.1 == k)).map Prod.snd

def emptyQuestionRec : QuestionRec :=
  { question_id := [], chunk_id := [], section_title := [], question := [] }

/-- The chunk-collection loop of `retrieve_chunks_for_query` (ask.py): walk
the top indices, dedupe by `chunk_id` (a duplicate is skipped via `continue`),
append the chunk found in the map (a dangling id appends nothing), and stop as
soon as `MAX_CHUNKS` chunks are collected.  `questions[int(idx)]` cannot be
out of range when the index matches the question list, so the total `getD`
stands in for Python's checked indexing. -/
def collectLoop (questions : List QuestionRec) (chunksById : List (Str × ChunkRec)) :
    List Nat → List Str → List ChunkRec → List ChunkRec
  | [], _, acc => acc
  | i :: rest, seen, acc =>
      let cid := (questions.getD i emptyQuestionRec).chunk_id
      if seen.contains cid then collectLoop questions chunksById rest seen acc
      else
        let seen2 := cid :: seen
        let acc2 := match lookupChunk chunksById cid with
          | some ch => acc ++ [ch]
          | none => acc
        if maxChunksCfg ≤ acc2.length then acc2
        else collectLoop questions chunksById rest seen2 acc2

/-- `retrieve_chunks_for_query` (ask.py).  The embedding backend and the
row-wise cosine similarity of `cosine_sim_matrix` (floating-point norms and
division) are abstracted as the parameters `embedFn` and `simFn`; everything
after the similarity vector is modelled concretely:
`top_indices = np.argsort(-sims)[:TOP_K_QUESTIONS]`, the maximum similarity
is `sims[top_indices[0]]` (or `0.0` for an empty candidate list), and the
context chunks come from the deduplicating collection loop. -/
def retrieveChunksForQuery (embedFn : Str → Vec) (simFn : Vec → Vec → ℚ)
    (userQ : Str) (embMatrix : List Vec) (questions : List QuestionRec)
    (chunksById : List (Str × ChunkRec)) : ℚ × List ChunkRec :=
  let qVec := embedFn userQ
  let sims := embMatrix.map (fun row => simFn qVec row)
  let topIndices := (argsortAsc (sims.map (fun x => -x))).take topKQuestions
  let maxSim : ℚ :=
    match topIndices with
    | [] => 0
    | i :: _ => qAt sims i
  (maxSim, collectLoop questions chunksById topIndices [] [])

/-- `build_context_prompt` (ask.py): the rules header around the single
context chunk's text (current configuration `MAX_CHUNKS = 1`); Python indexes
`context_chunks[0]`, which its callers only reach with a non-empty list. -/
def buildContextPrompt (userQ : Str) (contextChunks : List ChunkRec) : Str :=
  let contextText := (contextChunks.headD
    { chunk_id := [], section_title := [], source_file := [], url := [], text := [] }).text
  ("\nFollow the rules below exactly. Do not violate or ignore any rule.\n\nRULES (read carefully):\n\n1. You must output exactly ONE of:\n   (a) an answer based ONLY on user enquiry and all relevant details in the excerpt,\n   (b) the exact string: \"I cannot help with that as it would violate college policy.\",\n   (c) the exact string: \"Insufficient context in the handbook sections I know.\"\n\n\n2. If the question explicitly seeks tips, strategies, or methods to break or sneak around college guidelines,\n   respond ONLY with line (b).\n\n\n3. If the question seeks to manipulate a specific person or group,\n   respond ONLY with line (b).\n\n\n4. If the excerpt includes policy language that directly relates to the question,\n   respond with line (a).\n\n\n5. If the excerpt does NOT include policy language that directly relates to the\n   question, respond ONLY with line (c).\n\n\n6. You must NOT guess, improvise, add assumptions, or supply information not in\n   the excerpt.\n\n\n7. You must NOT mention anything about the rules, excerpt, or knowledge base.\n\n\n--- EXCERPT START ---\n").toList
  ++ contextText ++ ("\n--- EXCERPT END ---\n\nUSER QUESTION:\n").toList
  ++ userQ ++ ("\n\nYOUR RESPONSE:\n").toList

/-- The fixed insufficient-context string returned by `safe_generate_answer`
(score.py) and printed (with an extra `"\n"`) by `answer_query` (ask.py). -/
def insufficientMsg : Str :=
  ("Insufficient context in the handbook sections I know.").toList

/-- `safe_generate_answer` (score.py) with the generation backend passed as a
function: the confidence gate returns the fixed string, otherwise the model
response for the context prompt, stripped. -/
def safeGenerateAnswer (gen : Str → Str) (userQ : Str) (maxSim : ℚ)
    (contextChunks : List ChunkRec) : Str :=
  if maxSim < minSimilarity ∨ contextChunks = [] then insufficientMsg
  else pyStrip (gen (buildContextPrompt userQ contextChunks))

/-- `answer_query` (ask.py), modelled as the list of strings it passes to
`print`: retrieval, then the confidence gate, then answer plus citation
lines. -/
def answerQuery (embedFn : Str → Vec) (simFn : Vec → Vec → ℚ) (gen : Str → Str)
    (userQ : Str) (embMatrix : List Vec) (questions : List QuestionRec)
    (chunksById : List (Str × ChunkRec)) : List Str :=
  let r := retrieveChunksForQuery embedFn simFn userQ embMatrix questions chunksById
  if r.1 < minSimilarity ∨ r.2 = [] then
    [("Insufficient context in the handbook sections I know.\n").toList]
  else
    let answer := gen (buildContextPrompt userQ r.2)
    [pyStrip answer, ("\nSources:").toList]
    ++ r.2.map (fun ch =>
        if ch.url ≠ [] then
          ("- ").toList ++ ch.section_title ++ (" – Student Handbook (").toList
            ++ ch.url ++ (")").toList
        else ("- ").toList ++ ch.section_title ++ (" – Student Handbook").toList)
    ++ [[]]

structure GoldRow where
  qid : Str
  question : Str
  qtype : Str
  gold_chunk : Str
  notes : Str
  deriving DecidableEq

structure ResultRow where
  qid : Str
  question : Str
  qtype : Str
  gold_chunk : Str
  pred_chunk : Str
  hit1 : Option Nat
  answer_text : Str
  notes : Str
  deriving DecidableEq

/-- The evaluator's printed summary (score.py): either the `Hit@1` line with
its numerator and denominator (the float formatting of `hits / normals` is
not modelled), or the `"No answerable normal questions found."` message. -/
inductive EvalSummary where
  | hitRate (totalNormals totalHits : Nat) : EvalSummary
  | noAnswerable : EvalSummary
  deriving DecidableEq

/-- `context_chunks[0]["chunk_id"] if context_chunks else ""` (score.py). -/
def predChunkOf (contextChunks : List ChunkRec) : Str :=
  match contextChunks with
  | [] => []
  | ch :: _ => ch.chunk_id

/-- The per-case loop of `main` (score.py), with the whole retrieval pipeline
abstracted as `retr` (score.py calls `retrieve_chunks_for_query` through the
live backends): accumulate `total_normals`, `total_hits` and the result rows
in order. -/
def scoreLoop (retr : Str → ℚ × List ChunkRec) (gen : Str → Str) :
    List GoldRow → Nat → Nat → List ResultRow → List ResultRow × Nat × Nat
  | [], totalNormals, totalHits, outRows => (outRows, totalNormals, totalHits)
  | row :: rest, totalNormals, totalHits, outRows =>
      let res := retr row.question
      let goldChunk := pyStrip row.gold_chunk
      let pred := predChunkOf res.2
      let answerText := safeGenerateAnswer gen row.question res.1 res.2
      if row.qtype = ("normal").toList ∧ goldChunk ≠ [] then
        let h1 : Nat := if pred = goldChunk then 1 else 0
        let r1 : ResultRow :=
          { qid := row.qid, question := row.question, qtype := row.qtype,
            gold_chunk := goldChunk, pred_chunk := pred, hit1 := some h1,
            answer_text := answerText, notes := row.notes }
        scoreLoop retr gen rest (totalNormals + 1) (totalHits + h1) (outRows ++ [r1])
      else
        let r1 : ResultRow :=
          { qid := row.qid, question := row.question, qtype := row.qtype,
            gold_chunk := goldChunk, pred_chunk := pred, hit1 := none,
            answer_text := answerText, notes := row.notes }
        scoreLoop retr gen rest totalNormals totalHits (outRows ++ [r1])

/-- `main` (score.py): run every gold case, then summarise: the `Hit@1` line
when at least one normal case with a gold chunk was seen, otherwise the
no-answerable-cases message. -/
def scoreMain (retr : Str → ℚ × List ChunkRec) (gen : Str → Str)
    (gold : List GoldRow) : List ResultRow × EvalSummary :=
  let r := scoreLoop retr gen gold 0 0 []
  (r.1, if 0 < r.2.1 then EvalSummary.hitRate r.2.1 r.2.2 else EvalSummary.noAnswerable)

/-- Closed form of one result row of score.py's loop, stated as the spec
describes a single case; the loop is proved to produce exactly these rows. -/
def rowFor (retr : Str → ℚ × List ChunkRec) (gen : Str → Str) (row : GoldRow) :
    ResultRow :=
  let res := retr row.question
  let goldChunk := pyStrip row.gold_chunk
  let pred := predChunkOf res.2
  { qid := row.qid, question := row.question, qtype := row.qtype,
    gold_chunk := goldChunk, pred_chunk := pred,
    hit1 := if row.qtype = ("normal").toList ∧ goldChunk ≠ [] then
        some (if pred = goldChunk then 1 else 0)
      else none,
    answer_text := safeGenerateAnswer gen row.question res.1 res.2,
    notes := row.notes }

/-- Spec-side eligibility: a case of type `"normal"` with a non-empty
(stripped) gold chunk. -/
def eligibleCase (row : GoldRow) : Bool :=
  decide (row.qtype = ("normal").toList ∧ pyStrip row.gold_chunk ≠ [])

/-- Spec-side hit: an eligible case whose predicted top-1 chunk id equals the
gold chunk id. -/
def hitCase (retr : Str → ℚ × List ChunkRec) (row : GoldRow) : Bool :=
  eligibleCase row &&
  decide (predChunkOf (retr row.question).2 = pyStrip row.gold_chunk)

/-- Helper for the amended blank-line claims: no two consecutive lines are
both blank. -/
def noTwoAdjacentBlankLines : List Str → Bool
  | a :: b :: rest =>
      !(pyStrip a == [] && pyStrip b == []) && noTwoAdjacentBlankLines (b :: rest)
  | _ => true

/-- Total length of a paragraph list, without separators. -/
def sumLen (g : List Str) : Nat := (g.map List.length).sum

/-- Drop a final empty line, if present: the effect of Python `splitlines`
on a text with a trailing newline. -/
def trimLastEmpty (ls : List Str) : List Str :=
  if ls.getLast? = some ([] : Str) then ls.dropLast else ls

/-- The first line, if any, is not blank. -/
def headNotBlank : List Str → Prop
  | [] => True
  | l :: _ => pyStrip l ≠ []

/- Concrete fixtures used by witnesses and counterexamples. -/

/-- A deterministic chat backend returning one well-grounded question. -/
def chat0 : Str → Str := fun _ => ("Are pets allowed in dorm rooms?").toList

def chunk0 : ChunkRec :=
  { chunk_id := ("chunk_0").toList, section_title := ("Pets").toList,
    source_file := ("pets.txt").toList, url := [],
    text := ("Pets are allowed in dorm rooms only if they are fish.").toList }

def rec0 : QuestionRec :=
  { question_id := ("chunk_0_q0").toList, chunk_id := ("chunk_0").toList,
    section_title := ("Pets").toList,
    question := ("Are pets allowed in dorm rooms?").toList }

def store0 : IndexStore :=
  { chunksFile := [chunk0], questionsFile := [], embeddingsFile := [],
    metaFile := none }

/-- An embedding backend whose every call fails. -/
def embedFail : Str → Except Str Vec :=
  fun _ => .error (("embedding backend failure").toList)

/-! ## Theorems -/

/-- C9: a query against an embedding matrix with zero rows yields maximum
similarity `0` and an empty context-chunk list, for every embedding backend,
similarity function, question and index content. -/
theorem c9_empty_index_retrieval :
    ∀ (embedFn : Str → Vec) (simFn : Vec → Vec → ℚ) (userQ : Str)
      (questions : List QuestionRec) (chunksById : List (Str × ChunkRec)),
      retrieveChunksForQuery embedFn simFn userQ [] questions chunksById = (0, []) :=
  fun _ _ _ _ _ => rfl

/-- C3: whenever the retrieval result fails the confidence gate (maximum
similarity below `MIN_SIMILARITY`, or no context chunks), `safe_generate_answer`
returns exactly the fixed insufficient-context string and `answer_query`
prints exactly the fixed message; both are independent of the generation
backend (the universally quantified `gen` / `gen2`), which is the shallow
form of "no generation call is performed". -/
theorem c3_confidence_gate :
    ∀ (embedFn : Str → Vec) (simFn : Vec → Vec → ℚ) (gen gen2 : Str → Str)
      (userQ : Str) (embMatrix : List Vec) (questions : List QuestionRec)
      (chunksById : List (Str × ChunkRec)) (maxSim : ℚ) (ctx : List ChunkRec),
      retrieveChunksForQuery embedFn simFn userQ embMatrix questions chunksById
        = (maxSim, ctx) →
      (maxSim < minSimilarity ∨ ctx = []) →
      safeGenerateAnswer gen userQ maxSim ctx = insufficientMsg ∧
      safeGenerateAnswer gen userQ maxSim ctx
        = safeGenerateAnswer gen2 userQ maxSim ctx ∧
      answerQuery embedFn simFn gen userQ embMatrix questions chunksById
        = [insufficientMsg ++ ['\n']] ∧
      answerQuery embedFn simFn gen userQ embMatrix questions chunksById
        = answerQuery embedFn simFn gen2 userQ embMatrix questions chunksById := by
  intro embedFn simFn gen gen2 userQ embMatrix questions chunksById maxSim ctx h1 h2
  have hs : ∀ g : Str → Str, safeGenerateAnswer g userQ maxSim ctx = insufficientMsg := by
    intro g
    unfold safeGenerateAnswer
    rw [if_pos h2]
  have ha : ∀ g : Str → Str,
      answerQuery embedFn simFn g userQ embMatrix questions chunksById
        = [insufficientMsg ++ ['\n']] := by
    intro g
    unfold answerQuery
    rw [h1]
    simp only []
    rw [if_pos h2]
    decide
  exact ⟨hs gen, (hs gen).trans (hs gen2).symm, ha gen, (ha gen).trans (ha gen2).symm⟩

/-- C3 witness: the gate fires at a concrete retrieval result with no context
chunks, and both synthesizer entry points return the fixed string. -/
theorem c3_confidence_gate_witness :
    safeGenerateAnswer (fun _ => []) [] 0 [] = insufficientMsg ∧
    safeGenerateAnswer (fun _ => []) [] 0 []
      = safeGenerateAnswer (fun s => s) [] 0 [] ∧
    answerQuery (fun _ => []) (fun _ _ => 0) (fun _ => []) [] [] [] []
      = [insufficientMsg ++ ['\n']] ∧
    answerQuery (fun _ => []) (fun _ _ => 0) (fun _ => []) [] [] [] []
      = answerQuery (fun _ => []) (fun _ _ => 0) (fun s => s) [] [] [] [] :=
  c3_confidence_gate (fun _ => []) (fun _ _ => 0) (fun _ => []) (fun s => s)
    [] [] [] [] 0 [] rfl (Or.inr rfl)

/-- C1 counterexample: in the multi-section file `living_on_campus.txt`, the
text `"intro text"` preceding the first Roman-numeral header is not attributed
to the filename-derived fallback title `"Living On Campus"`; it appears in no
emitted chunk at all — the only chunk is the body of section `"Rules"`. -/
theorem c1_counterexample :
    iterSectionChunks (("intro text\n\nI. Rules\nbody here").toList)
        (("living_on_campus.txt").toList) 3000
      = [(("Rules").toList, ("body here").toList)] ∧
    fileBaseTitle (("living_on_campus.txt").toList) = ("Living On Campus").toList ∧
    (iterSectionChunks (("intro text\n\nI. Rules\nbody here").toList)
        (("living_on_campus.txt").toList) 3000).all
      (fun c => !(c.1 == ("Living On Campus").toList)
        && !(containsSub (("intro").toList) c.2)) = true := by
  decide

/-- C2 counterexample: for the single-section document `" hello world"` the
normalized source text keeps its leading space, but the only emitted chunk is
the stripped paragraph, so concatenating all chunk texts (and collapsing
blank-line runs) does not reproduce the normalized source: the space is
lost. -/
theorem c2_counterexample :
    normalizeNewlines ((" hello world").toList) = (" hello world").toList ∧
    (iterSectionChunks ((" hello world").toList) (("foo.txt").toList) 3000).map
        Prod.snd = [("hello world").toList] ∧
    normalizeNewlines (joinSep nl2
        ((iterSectionChunks ((" hello world").toList) (("foo.txt").toList)
          3000).map Prod.snd))
      ≠ normalizeNewlines ((" hello world").toList) := by
  decide

/-- C10 counterexample: `normalize_newlines` is not idempotent.  On
`"a\n\n"` the first pass yields `"a\n"` (the streak of blank lines becomes
one empty line), but the second pass yields `"a"`, because `splitlines`
produces no final empty line for a trailing newline. -/
theorem c10_counterexample :
    normalizeNewlines (("a\n\n").toList) = ("a\n").toList ∧
    normalizeNewlines (normalizeNewlines (("a\n\n").toList))
      ≠ normalizeNewlines (("a\n\n").toList) := by
  decide

/-- C6 counterexample: starting from a store whose question and embedding
artifacts are consistent (both empty), a failing embedding backend aborts the
run, yet the persisted questions file has already been rewritten with the new
question while the embedding matrix is untouched — the artifacts are left
mutually inconsistent, so indexing is not all-or-nothing. -/
theorem c6_counterexample :
    store0.questionsFile.length = store0.embeddingsFile.length ∧
    (mainIndex chat0 embedFail store0).2 ≠ none ∧
    (mainIndex chat0 embedFail store0).1.questionsFile.length = 1 ∧
    (mainIndex chat0 embedFail store0).1.embeddingsFile.length = 0 := by
  decide

/-- Lines that match no Roman header are only accumulated by the scanner
while no section title is set. -/
theorem multiLoop_skip_non_headers (b : Str) (m : Nat) :
    ∀ (pre rest cur : List Str),
      (∀ l ∈ pre, romanHeaderMatch (pyStrip l) = none) →
      multiLoop b m (pre ++ rest) none cur = multiLoop b m rest none (cur ++ pre) := by
  intro pre
  induction pre with
  | nil => intro rest cur _; simp
  | cons l pre ih =>
      intro rest cur hpre
      have hl : romanHeaderMatch (pyStrip l) = none := hpre l (by simp)
      show multiLoop b m (l :: (pre ++ rest)) none cur = _
      rw [multiLoop, hl]
      rw [ih rest (cur ++ [l]) (fun x hx => hpre x (by simp [hx]))]
      simp

/-- At the first header the scanner discards everything accumulated so far:
no flush happens when no title is set. -/
theorem multiLoop_first_header (b : Str) (m : Nat) (hd : Str) (rest cur : List Str)
    (rawT : Str) (h : romanHeaderMatch (pyStrip hd) = some rawT) :
    multiLoop b m (hd :: rest) none cur
      = multiLoop b m rest (some (pyStrip rawT)) [] := by
  rw [multiLoop, h]
  simp

/-- C1 corrected: for a multi-section document whose normalized text contains
a Roman-numeral header, the chunker discards all text preceding the first
header: the output is exactly the output of scanning the remaining lines with
the first header's title, independent of the preceding lines, which are never
attributed to the filename-derived fallback title. -/
theorem c1_amended_preheader_discarded :
    ∀ (text filename : Str) (maxChars : Nat) (pre : List Str) (hd : Str)
      (rest : List Str) (rawT : Str),
      multiSectionFiles.contains filename = true →
      pySplitlines (normalizeNewlines text) = pre ++ hd :: rest →
      (∀ l ∈ pre, romanHeaderMatch (pyStrip l) = none) →
      romanHeaderMatch (pyStrip hd) = some rawT →
      iterSectionChunks text filename maxChars
        = multiLoop (fileBaseTitle filename) maxChars rest (some (pyStrip rawT)) [] := by
  intro text filename maxChars pre hd rest rawT hmulti hsplit hpre hhd
  unfold iterSectionChunks
  simp only [hmulti, if_pos]
  rw [hsplit, multiLoop_skip_non_headers _ _ pre (hd :: rest) [] hpre,
    multiLoop_first_header _ _ _ _ _ _ hhd]

/-- C1 witness: the concrete discard instance behind the counterexample,
obtained from the amended theorem. -/
theorem c1_amended_witness :
    iterSectionChunks (("intro text\n\nI. Rules\nbody here").toList)
        (("living_on_campus.txt").toList) 3000
      = multiLoop (fileBaseTitle (("living_on_campus.txt").toList)) 3000
          [("body here").toList] (some (pyStrip (("Rules").toList))) [] :=
  c1_amended_preheader_discarded _ _ 3000
    [("intro text").toList, []] (("I. Rules").toList) [("body here").toList]
    (("Rules").toList) (by decide) (by decide) (by decide) (by decide)

theorem joinSep_cons_ne (sep x : Str) (l : List Str) (h : l ≠ []) :
    joinSep sep (x :: l) = x ++ sep ++ joinSep sep l := by
  cases l with
  | nil => exact absurd rfl h
  | cons y t => rfl

theorem joinSep_append (sep : Str) :
    ∀ (a b : List Str), a ≠ [] → b ≠ [] →
      joinSep sep (a ++ b) = joinSep sep a ++ sep ++ joinSep sep b := by
  intro a
  induction a with
  | nil => intro b h _; exact absurd rfl h
  | cons x a ih =>
      intro b _ hb
      cases a with
      | nil => simp [joinSep_cons_ne sep x b hb, joinSep]
      | cons y t =>
          have hne : (y :: t) ++ b ≠ [] := by simp
          rw [List.cons_append, joinSep_cons_ne sep x _ hne, ih b (by simp) hb,
            joinSep_cons_ne sep x (y :: t) (by simp)]
          simp [List.append_assoc]

theorem catLists_ne_nil {α : Type} (gs : List (List α)) (hne : gs ≠ [])
    (hall : ∀ g ∈ gs, g ≠ []) : catLists gs ≠ [] := by
  cases gs with
  | nil => exact absurd rfl hne
  | cons g t =>
      have : g ≠ [] := hall g (by simp)
      cases g with
      | nil => exact absurd rfl this
      | cons x s => simp [catLists]

theorem joinSep_map_join (sep : Str) :
    ∀ (gs : List (List Str)), (∀ g ∈ gs, g ≠ []) →
      joinSep sep (gs.map (joinSep sep)) = joinSep sep (catLists gs) := by
  intro gs
  induction gs with
  | nil => intro _; rfl
  | cons g t ih =>
      intro hall
      cases t with
      | nil => simp [catLists, joinSep]
      | cons g2 t2 =>
          have hg : g ≠ [] := hall g (by simp)
          have ht : ∀ x ∈ g2 :: t2, x ≠ [] := fun x hx => hall x (by simp [hx])
          have hcat : catLists (g2 :: t2) ≠ [] :=
            catLists_ne_nil (g2 :: t2) (by simp) ht
          rw [List.map_cons, joinSep_cons_ne sep _ _ (by simp), ih ht]
          show _ = joinSep sep (g ++ catLists (g2 :: t2))
          rw [joinSep_append sep g (catLists (g2 :: t2)) hg hcat]

theorem chunkGroupsAux_flat (m : Nat) :
    ∀ (ps cur : List Str) (curLen : Nat),
      catLists (chunkGroupsAux m ps cur curLen) = cur ++ ps := by
  intro ps
  induction ps with
  | nil =>
      intro cur curLen
      unfold chunkGroupsAux
      split
      · simp_all [catLists]
      · simp [catLists]
  | cons p ps ih =>
      intro cur curLen
      unfold chunkGroupsAux
      split
      · simp [catLists, ih]
      · simp [ih]

theorem chunkGroupsAux_ne_nil (m : Nat) :
    ∀ (ps cur : List Str) (curLen : Nat),
      ∀ g ∈ chunkGroupsAux m ps cur curLen, g ≠ [] := by
  intro ps
  induction ps with
  | nil =>
      intro cur curLen g hg
      unfold chunkGroupsAux at hg
      split at hg
      · simp at hg
      · simp_all
  | cons p ps ih =>
      intro cur curLen g hg
      unfold chunkGroupsAux at hg
      split at hg
      · rcases List.mem_cons.mp hg with h | h
        · subst h; simp_all
        · exact ih _ _ g h
      · exact ih _ _ g hg

/-- C2 corrected: the greedy packer loses no paragraph: joining its chunks
with one blank line restores the blank-line join of the input paragraphs, and
hence, for a non-multi-section document, the join of all emitted chunk texts
equals the blank-line join of the stripped, non-empty paragraphs of the
normalized source text (per-paragraph surrounding whitespace and empty
paragraphs are the only losses; multi-section documents additionally lose the
header lines and pre-first-header text, per the C1 correction). -/
theorem c2_amended_paragraphs_preserved :
    (∀ (ps : List Str) (m : Nat),
      joinSep nl2 (splitParagraphsIntoChunks ps m) = joinSep nl2 ps) ∧
    ∀ (text filename : Str) (m : Nat),
      multiSectionFiles.contains filename = false →
      joinSep nl2 ((iterSectionChunks text filename m).map Prod.snd)
        = joinSep nl2 (paragraphsOfText (normalizeNewlines text)) := by
  have part1 : ∀ (ps : List Str) (m : Nat),
      joinSep nl2 (splitParagraphsIntoChunks ps m) = joinSep nl2 ps := by
    intro ps m
    unfold splitParagraphsIntoChunks chunkGroups
    rw [joinSep_map_join nl2 _ (chunkGroupsAux_ne_nil m ps [] 0)]
    rw [chunkGroupsAux_flat m ps [] 0]
    rfl
  refine ⟨part1, ?_⟩
  intro text filename m hnm
  unfold iterSectionChunks
  simp only [hnm, Bool.false_eq_true, if_false, List.map_map]
  have : (Prod.snd ∘ fun c => (fileBaseTitle filename, c)) = (id : Str → Str) := rfl
  rw [this, List.map_id]
  exact part1 _ m

/-- C2 witness: a concrete non-multi-section document with two paragraphs and
untrimmed whitespace; the chunk join equals the paragraph join. -/
theorem c2_amended_witness :
    joinSep nl2 ((iterSectionChunks ((" hello world\n\nsecond par ").toList)
        (("foo.txt").toList) 3000).map Prod.snd)
      = joinSep nl2 (paragraphsOfText
          (normalizeNewlines ((" hello world\n\nsecond par ").toList))) :=
  c2_amended_paragraphs_preserved.2 _ _ 3000 (by decide)

theorem joinSep_nl2_length :
    ∀ (g : List Str), g ≠ [] →
      (joinSep nl2 g).length = sumLen g + 2 * (g.length - 1) := by
  intro g
  induction g with
  | nil => intro h; exact absurd rfl h
  | cons x t ih =>
      intro _
      cases t with
      | nil => simp [joinSep, sumLen]
      | cons y s =>
          rw [joinSep_cons_ne nl2 x (y :: s) (by simp)]
          have := ih (by simp)
          simp only [List.length_append, List.length_cons, sumLen, List.map_cons,
            List.sum_cons] at *
          simp [nl2] at *
          omega

theorem chunkGroupsAux_bound (m : Nat) :
    ∀ (ps cur : List Str) (curLen : Nat),
      sumLen cur + 2 * (cur.length - 1) ≤ curLen →
      (cur ≠ [] → cur.length = 1 ∨ sumLen cur + 2 * (cur.length - 1) ≤ m) →
      ∀ g ∈ chunkGroupsAux m ps cur curLen,
        g.length = 1 ∨ sumLen g + 2 * (g.length - 1) ≤ m := by
  intro ps
  induction ps with
  | nil =>
      intro cur curLen _ h2 g hg
      unfold chunkGroupsAux at hg
      split at hg
      · simp at hg
      · rename_i hcur
        simp only [List.mem_singleton] at hg
        subst hg
        exact h2 hcur
  | cons p ps ih =>
      intro cur curLen h1 h2 g hg
      unfold chunkGroupsAux at hg
      split at hg
      · rename_i hcond
        rcases List.mem_cons.mp hg with h | h
        · subst h; exact h2 hcond.1
        · refine ih [p] p.length ?_ ?_ g h
          · simp [sumLen]
          · intro _; left; rfl
      · rename_i hcond
        have hsl : sumLen (cur ++ [p]) = sumLen cur + p.length := by simp [sumLen]
        have hll : (cur ++ [p]).length = cur.length + 1 := by simp
        have hlen : sumLen (cur ++ [p]) + 2 * ((cur ++ [p]).length - 1)
            ≤ curLen + p.length + 2 := by
          rw [hsl, hll]
          cases cur with
          | nil => simp [sumLen]; omega
          | cons c cs =>
              have hge : 1 ≤ (c :: cs).length := by simp
              omega
        refine ih (cur ++ [p]) (curLen + p.length + 2) hlen ?_ g hg
        intro _
        cases cur with
        | nil => left; rfl
        | cons c cs =>
            right
            have hm : curLen + p.length + 2 ≤ m := by
              rcases not_and_or.mp hcond with h | h
              · exact absurd (by simp) h
              · omega
            omega

theorem mem_catLists {α : Type} :
    ∀ (gs : List (List α)) (g : List α) (x : α), g ∈ gs → x ∈ g → x ∈ catLists gs := by
  intro gs
  induction gs with
  | nil => intro g x hg _; simp at hg
  | cons h t ih =>
      intro g x hg hx
      rcases List.mem_cons.mp hg with hgh | hgt
      · subst hgh; simp [catLists, hx]
      · simp [catLists]
        exact Or.inr (by simpa [catLists] using ih g x hgt hx)

/-- C5: for every paragraph list and positive character budget, every chunk
produced by the greedy packer is the blank-line join of a non-empty group of
input paragraphs, and either its text length is at most `max_chars` or the
group is a single paragraph whose own length exceeds `max_chars`. -/
theorem c5_chunk_size_bound :
    ∀ (ps : List Str) (m : Nat), 0 < m →
      ∀ c ∈ splitParagraphsIntoChunks ps m,
        ∃ g, g ∈ chunkGroups ps m ∧ g ≠ [] ∧ c = joinSep nl2 g ∧
          (∀ p ∈ g, p ∈ ps) ∧
          (c.length ≤ m ∨ ∃ p, g = [p] ∧ m < p.length) := by
  intro ps m _ c hc
  unfold splitParagraphsIntoChunks at hc
  rcases List.mem_map.mp hc with ⟨g, hg, hcg⟩
  have hne : g ≠ [] := chunkGroupsAux_ne_nil m ps [] 0 g hg
  refine ⟨g, hg, hne, hcg.symm, ?_, ?_⟩
  · intro p hp
    have := mem_catLists _ g p hg hp
    rwa [chunkGroups, chunkGroupsAux_flat m ps [] 0, List.nil_append] at this
  · have hbound := chunkGroupsAux_bound m ps [] 0 (by simp [sumLen]) (by simp) g hg
    have hlen : c.length = sumLen g + 2 * (g.length - 1) := by
      rw [← hcg, joinSep_nl2_length g hne]
    rcases hbound with h1 | h2
    · rcases List.length_eq_one.mp h1 with ⟨p, hp⟩
      by_cases hpm : p.length ≤ m
      · left
        subst hp
        simp [sumLen] at hlen
        omega
      · right
        exact ⟨p, hp, by omega⟩
    · left; omega

/-- C5 witness: a concrete run at budget 6: `"aa"` overflows when `"bb"`
arrives (the running length bookkeeping counts `len(p) + 2` even for the
first paragraph), then `"bb"` and `"cc"` share a chunk; all bounds hold. -/
theorem c5_chunk_size_bound_witness :
    ∃ g, g ∈ chunkGroups [("aa").toList, ("bb").toList, ("cc").toList] 6 ∧
      g ≠ [] ∧ ("bb\n\ncc").toList = joinSep nl2 g ∧
      (∀ p ∈ g, p ∈ [("aa").toList, ("bb").toList, ("cc").toList]) ∧
      ((("bb\n\ncc").toList).length ≤ 6 ∨ ∃ p, g = [p] ∧ 6 < p.length) :=
  c5_chunk_size_bound [("aa").toList, ("bb").toList, ("cc").toList] 6
    (by decide) (("bb\n\ncc").toList) (by decide)

/-- If any question's embedding call fails, the sequential embedding loop
aborts with an error (the first failure encountered propagates). -/
theorem buildEmbeddings_error_of_mem :
    ∀ (embed : Str → Except Str Vec) (qs : List QuestionRec),
      (∃ q ∈ qs, ∃ e, embed q.question = .error e) →
      ∃ e, buildEmbeddings embed qs = .error e := by
  intro embed qs
  induction qs with
  | nil => intro h; rcases h with ⟨q, hq, _⟩; simp at hq
  | cons q qs ih =>
      intro h
      unfold buildEmbeddings
      cases hq : embed q.question with
      | error e => exact ⟨e, rfl⟩
      | ok v =>
          rcases h with ⟨q2, hq2, e2, he2⟩
          rcases List.mem_cons.mp hq2 with h | h
          · subst h; rw [hq] at he2; exact absurd he2 (by simp)
          · rcases ih ⟨q2, h, e2, he2⟩ with ⟨e3, he3⟩
            rw [he3]
            exact ⟨e3, rfl⟩

/-- C6 corrected: a failing embedding call makes the indexing run abort with
the propagated error, and neither the embedding matrix nor the metadata is
written; but `save_questions` has already rewritten the questions artifact
with the freshly generated questions, so the persisted question and embedding
artifacts need not remain mutually consistent (see the counterexample). -/
theorem c6_amended_abort_without_matrix :
    ∀ (chat : Str → Str) (embed : Str → Except Str Vec) (store : IndexStore),
      (∃ q ∈ buildQuestions chat store.chunksFile, ∃ e, embed q.question = .error e) →
      (∃ e, (mainIndex chat embed store).2 = some e) ∧
      (mainIndex chat embed store).1.embeddingsFile = store.embeddingsFile ∧
      (mainIndex chat embed store).1.metaFile = store.metaFile ∧
      (mainIndex chat embed store).1.chunksFile = store.chunksFile ∧
      (mainIndex chat embed store).1.questionsFile
        = buildQuestions chat store.chunksFile := by
  intro chat embed store h
  rcases buildEmbeddings_error_of_mem embed _ h with ⟨e, he⟩
  simp only [mainIndex, he]
  exact ⟨⟨e, rfl⟩, trivial, trivial, trivial, trivial⟩

/-- C6 witness: the failing backend aborts the concrete run while leaving the
embedding matrix and metadata untouched and the questions rewritten. -/
theorem c6_amended_witness :
    (∃ e, (mainIndex chat0 embedFail store0).2 = some e) ∧
    (mainIndex chat0 embedFail store0).1.embeddingsFile = store0.embeddingsFile ∧
    (mainIndex chat0 embedFail store0).1.metaFile = store0.metaFile ∧
    (mainIndex chat0 embedFail store0).1.chunksFile = store0.chunksFile ∧
    (mainIndex chat0 embedFail store0).1.questionsFile
      = buildQuestions chat0 store0.chunksFile :=
  c6_amended_abort_without_matrix chat0 embedFail store0
    ⟨rec0, by decide, ("embedding backend failure").toList, rfl⟩

/-- Every record produced by the enumerating builder carries the chunk id it
was built with and one of the supplied question strings. -/
theorem mem_numberQuestions :
    ∀ (cid title : Str) (qs : List Str) (i : Nat) (r : QuestionRec),
      r ∈ numberQuestions cid title i qs →
      r.chunk_id = cid ∧ r.question ∈ qs := by
  intro cid title qs
  induction qs with
  | nil => intro i r hr; simp [numberQuestions] at hr
  | cons q qs ih =>
      intro i r hr
      rcases List.mem_cons.mp hr with h | h
      · subst h; exact ⟨rfl, by simp⟩
      · rcases ih (i + 1) r h with ⟨h1, h2⟩
        exact ⟨h1, by simp [h2]⟩

/-- C7: every synthetic question retained by `build_questions` originates
from a chunk of the input list whose id it carries, passed the support filter
against that chunk's text, and therefore has every maximal digit-substring
occurring verbatim in the chunk text and at least 2 shared content words. -/
theorem c7_support_filter :
    ∀ (chat : Str → Str) (chunks : List ChunkRec) (r : QuestionRec),
      r ∈ buildQuestions chat chunks →
      ∃ ch, ch ∈ chunks ∧ r.chunk_id = ch.chunk_id ∧
        questionSupportedByChunk r.question ch.text = true ∧
        (digitRuns r.question).all (fun n => containsSub n ch.text) = true ∧
        2 ≤ overlapCount r.question ch.text := by
  intro chat chunks
  induction chunks with
  | nil => intro r hr; simp [buildQuestions] at hr
  | cons ch rest ih =>
      intro r hr
      unfold buildQuestions at hr
      rcases List.mem_append.mp hr with h | h
      · split at h
        · simp at h
        · rcases mem_numberQuestions _ _ _ 0 r h with ⟨hid, hq⟩
          have hq2 := List.take_subset nQuestionsPerChunk _ hq
          rcases List.mem_filter.mp hq2 with ⟨_, hfil⟩
          simp only [Bool.and_eq_true] at hfil
          rcases hfil with ⟨_, hsupp⟩
          have hparts := hsupp
          simp only [questionSupportedByChunk, Bool.and_eq_true] at hparts
          refine ⟨ch, by simp, hid, hsupp, hparts.1, ?_⟩
          have := hparts.2
          unfold hasBasicOverlap at this
          exact of_decide_eq_true this
      · rcases ih r h with ⟨ch2, hmem, rest'⟩
        exact ⟨ch2, by simp [hmem], rest'⟩

/-- C7 witness: the concrete grounded question generated for `chunk0` is
retained, and all filter conclusions hold for it. -/
theorem c7_support_filter_witness :
    ∃ ch, ch ∈ [chunk0] ∧ rec0.chunk_id = ch.chunk_id ∧
      questionSupportedByChunk rec0.question ch.text = true ∧
      (digitRuns rec0.question).all (fun n => containsSub n ch.text) = true ∧
      2 ≤ overlapCount rec0.question ch.text :=
  c7_support_filter chat0 [chunk0] rec0 (by decide)

/-- The evaluator loop is the closed-form row map plus the closed-form
eligible / hit counts, for any starting accumulators. -/
theorem scoreLoop_spec (retr : Str → ℚ × List ChunkRec) (gen : Str → Str) :
    ∀ (gold : List GoldRow) (n h : Nat) (rows : List ResultRow),
      scoreLoop retr gen gold n h rows
        = (rows ++ gold.map (rowFor retr gen),
           n + gold.countP eligibleCase, h + gold.countP (hitCase retr)) := by
  intro gold
  induction gold with
  | nil => intro n h rows; simp [scoreLoop]
  | cons row rest ih =>
      intro n h rows
      unfold scoreLoop
      by_cases hel : row.qtype = ("normal").toList ∧ pyStrip row.gold_chunk ≠ []
      · rw [if_pos hel, ih]
        have helig : eligibleCase row = true := by
          unfold eligibleCase; exact decide_eq_true hel
        have hrow : rowFor retr gen row =
            { qid := row.qid, question := row.question, qtype := row.qtype,
              gold_chunk := pyStrip row.gold_chunk,
              pred_chunk := predChunkOf (retr row.question).2,
              hit1 := some (if predChunkOf (retr row.question).2
                  = pyStrip row.gold_chunk then 1 else 0),
              answer_text := safeGenerateAnswer gen row.question
                (retr row.question).1 (retr row.question).2,
              notes := row.notes } := by
          simp only [rowFor]
          rw [if_pos hel]
        by_cases hhit : predChunkOf (retr row.question).2 = pyStrip row.gold_chunk
        · have hhc : hitCase retr row = true := by
            unfold hitCase
            rw [helig, decide_eq_true hhit]
            rfl
          simp [List.countP_cons, helig, hhc, hrow, if_pos hhit]
          omega
        · have hhc : hitCase retr row = false := by
            unfold hitCase
            rw [helig, decide_eq_false hhit]
            rfl
          simp [List.countP_cons, helig, hhc, hrow, if_neg hhit]
          omega
      · rw [if_neg hel, ih]
        have helig : eligibleCase row = false := by
          unfold eligibleCase; exact decide_eq_false hel
        have hhc : hitCase retr row = false := by
          unfold hitCase
          rw [helig]
          rfl
        have hrow : rowFor retr gen row =
            { qid := row.qid, question := row.question, qtype := row.qtype,
              gold_chunk := pyStrip row.gold_chunk,
              pred_chunk := predChunkOf (retr row.question).2,
              hit1 := none,
              answer_text := safeGenerateAnswer gen row.question
                (retr row.question).1 (retr row.question).2,
              notes := row.notes } := by
          simp only [rowFor]
          rw [if_neg hel]
        simp [List.countP_cons, helig, hhc, hrow]

/-- C8: the evaluator emits one result row per gold case (with `hit1` set only
for cases of type `"normal"` with a non-empty gold chunk), and its summary is
the `Hit@1` ratio whose numerator counts the eligible cases with
`pred_chunk = gold_chunk` and whose denominator counts the eligible cases;
with zero eligible cases the no-answerable-cases message replaces the ratio,
so no division by zero occurs. -/
theorem c8_hit_rate :
    ∀ (retr : Str → ℚ × List ChunkRec) (gen : Str → Str) (gold : List GoldRow),
      (scoreMain retr gen gold).1 = gold.map (rowFor retr gen) ∧
      (scoreMain retr gen gold).2
        = (if 0 < gold.countP eligibleCase
           then EvalSummary.hitRate (gold.countP eligibleCase)
             (gold.countP (hitCase retr))
           else EvalSummary.noAnswerable) := by
  intro retr gen gold
  unfold scoreMain
  rw [scoreLoop_spec retr gen gold 0 0 []]
  simp

/-- Lines produced by `splitlines` contain no newline character. -/
theorem pySplitlinesAux_nlFree :
    ∀ (s acc : Str), (∀ c ∈ acc, c ≠ '\n') →
      ∀ l ∈ pySplitlinesAux s acc, ∀ c ∈ l, c ≠ '\n' := by
  intro s
  induction s with
  | nil =>
      intro acc hacc l hl
      unfold pySplitlinesAux at hl
      split at hl
      · simp at hl
      · simp only [List.mem_singleton] at hl
        subst hl
        intro c hc
        exact hacc c (List.mem_reverse.mp hc)
  | cons c cs ih =>
      intro acc hacc l hl
      unfold pySplitlinesAux at hl
      split at hl
      · rcases List.mem_cons.mp hl with h | h
        · subst h
          intro x hx
          exact hacc x (List.mem_reverse.mp hx)
        · exact ih [] (by simp) l h
      · rename_i hc
        refine ih (c :: acc) ?_ l hl
        intro x hx
        rcases List.mem_cons.mp hx with h | h
        · subst h; exact hc
        · exact hacc x h

theorem pySplitlinesAux_cons_ne (c : Char) (cs acc : Str) (hc : c ≠ '\n') :
    pySplitlinesAux (c :: cs) acc = pySplitlinesAux cs (c :: acc) := by
  show (if c = '\n' then acc.reverse :: pySplitlinesAux cs []
    else pySplitlinesAux cs (c :: acc)) = pySplitlinesAux cs (c :: acc)
  rw [if_neg hc]

theorem pySplitlinesAux_cons_nl (cs acc : Str) :
    pySplitlinesAux ('\n' :: cs) acc = acc.reverse :: pySplitlinesAux cs [] := by
  show (if '\n' = '\n' then acc.reverse :: pySplitlinesAux cs []
    else pySplitlinesAux cs ('\n' :: acc)) = _
  rw [if_pos rfl]

/-- Scanning a newline-free block prepends it (reversed) to the
accumulator. -/
theorem pySplitlinesAux_append :
    ∀ (l rest acc : Str), (∀ c ∈ l, c ≠ '\n') →
      pySplitlinesAux (l ++ rest) acc = pySplitlinesAux rest (l.reverse ++ acc) := by
  intro l
  induction l with
  | nil => intro rest acc _; simp
  | cons c l ih =>
      intro rest acc hl
      have hc : c ≠ '\n' := hl c (by simp)
      show pySplitlinesAux (c :: (l ++ rest)) acc = _
      rw [pySplitlinesAux_cons_ne c _ acc hc,
        ih rest (c :: acc) (fun x hx => hl x (by simp [hx]))]
      simp

/-- Round trip: splitting the newline-join of newline-free lines returns the
lines, except that a final empty line is dropped (Python `splitlines`
produces no line after a trailing newline). -/
theorem pySplitlines_joinSep :
    ∀ (ls : List Str), (∀ l ∈ ls, ∀ c ∈ l, c ≠ '\n') →
      pySplitlines (joinSep nl1 ls) = trimLastEmpty ls := by
  intro ls
  induction ls with
  | nil => intro _; rfl
  | cons x t ih =>
      intro hnl
      have hx : ∀ c ∈ x, c ≠ '\n' := hnl x (by simp)
      cases t with
      | nil =>
          have h1 : pySplitlines (joinSep nl1 [x]) = pySplitlinesAux [] x.reverse := by
            unfold pySplitlines
            have hxa : joinSep nl1 [x] = x ++ [] := by simp [joinSep]
            rw [hxa, pySplitlinesAux_append x [] [] hx]
            simp
          rw [h1]
          cases x with
          | nil => rfl
          | cons a s =>
              show (if (a :: s).reverse = [] then []
                  else [(a :: s).reverse.reverse]) = trimLastEmpty [a :: s]
              rw [if_neg (by simp)]
              simp [trimLastEmpty]
      | cons y s =>
          have hts : ∀ l ∈ y :: s, ∀ c ∈ l, c ≠ '\n' :=
            fun l hl => hnl l (by simp [hl])
          have hj : joinSep nl1 (x :: y :: s) = x ++ ('\n' :: joinSep nl1 (y :: s)) := by
            rw [joinSep_cons_ne nl1 x (y :: s) (by simp)]
            simp [nl1]
          have h1 : pySplitlines (joinSep nl1 (x :: y :: s))
              = x :: pySplitlines (joinSep nl1 (y :: s)) := by
            unfold pySplitlines
            rw [hj, pySplitlinesAux_append x _ [] hx, pySplitlinesAux_cons_nl]
            simp
          rw [h1, ih hts]
          unfold trimLastEmpty
          have hlast : (x :: y :: s).getLast? = (y :: s).getLast? := by
            simp [List.getLast?_cons_cons]
          rw [hlast]
          by_cases hcond : (y :: s).getLast? = some ([] : Str)
          · rw [if_pos hcond, if_pos hcond]
            simp
          · rw [if_neg hcond, if_neg hcond]

/-- Blank lines kept by the normalization loop are exactly empty. -/
theorem normLoop_blank_eq_nil :
    ∀ (ls : List Str) (streak : Nat) (l : Str),
      l ∈ normLoop ls streak → pyStrip l = [] → l = [] := by
  intro ls
  induction ls with
  | nil => intro streak l hl; simp [normLoop] at hl
  | cons a t ih =>
      intro streak l hl hblank
      unfold normLoop at hl
      split at hl
      · split at hl
        · rcases List.mem_cons.mp hl with h | h
          · exact h
          · exact ih 1 l h hblank
        · exact ih (streak + 1) l hl hblank
      · rename_i ha
        rcases List.mem_cons.mp hl with h | h
        · subst h; exact absurd hblank ha
        · exact ih 0 l h hblank

/-- The normalization loop only outputs empty lines or input lines. -/
theorem normLoop_nlFree :
    ∀ (ls : List Str) (streak : Nat), (∀ l ∈ ls, ∀ c ∈ l, c ≠ '\n') →
      ∀ l ∈ normLoop ls streak, ∀ c ∈ l, c ≠ '\n' := by
  intro ls
  induction ls with
  | nil => intro streak _ l hl; simp [normLoop] at hl
  | cons a t ih =>
      intro streak hin l hl
      have hta : ∀ x ∈ t, ∀ c ∈ x, c ≠ '\n' := fun x hx => hin x (by simp [hx])
      unfold normLoop at hl
      split at hl
      · split at hl
        · rcases List.mem_cons.mp hl with h | h
          · subst h; simp
          · exact ih 1 hta l h
        · exact ih (streak + 1) hta l hl
      · rcases List.mem_cons.mp hl with h | h
        · subst h; exact hin _ (by simp)
        · exact ih 0 hta l h

/-- The normalized line list has no two adjacent blank lines, and starts with
a non-blank line whenever a blank streak is pending. -/
theorem normLoop_noAdj :
    ∀ (ls : List Str) (streak : Nat),
      noTwoAdjacentBlankLines (normLoop ls streak) = true ∧
      (streak ≠ 0 → headNotBlank (normLoop ls streak)) := by
  intro ls
  induction ls with
  | nil => intro streak; exact ⟨rfl, fun _ => trivial⟩
  | cons a t ih =>
      intro streak
      unfold normLoop
      split
      · rename_i ha
        split
        · constructor
          · rcases ih 1 with ⟨hadj, hhead⟩
            have hh := hhead (by simp)
            cases hout : normLoop t 1 with
            | nil => simp [noTwoAdjacentBlankLines]
            | cons b r =>
                rw [hout] at hadj hh
                have hb : pyStrip b ≠ [] := hh
                simp [noTwoAdjacentBlankLines, hb, hadj]
          · rename_i hs; intro h; exact absurd hs h
        · exact ⟨(ih (streak + 1)).1, fun _ => (ih (streak + 1)).2 (by simp)⟩
      · rename_i ha
        constructor
        · rcases ih 0 with ⟨hadj, _⟩
          cases hout : normLoop t 0 with
          | nil => simp [noTwoAdjacentBlankLines]
          | cons b r =>
              rw [hout] at hadj
              simp [noTwoAdjacentBlankLines, ha, hadj]
        · intro _; exact ha

theorem noAdj_cons_tail (l : Str) (ls : List Str)
    (h : noTwoAdjacentBlankLines (l :: ls) = true) :
    noTwoAdjacentBlankLines ls = true := by
  cases ls with
  | nil => rfl
  | cons b r =>
      simp only [noTwoAdjacentBlankLines, Bool.and_eq_true] at h
      exact h.2

theorem noAdj_head_of_blank (a : Str) (ls : List Str)
    (h : noTwoAdjacentBlankLines (a :: ls) = true) (ha : pyStrip a = []) :
    headNotBlank ls := by
  cases ls with
  | nil => trivial
  | cons b r =>
      simp only [noTwoAdjacentBlankLines, Bool.and_eq_true, Bool.not_eq_true',
        Bool.and_eq_false_iff, beq_eq_false_iff_ne] at h
      rcases h.1 with h1 | h1
      · exact absurd ha h1
      · exact h1

/-- A prefix of a list without adjacent blank lines has no adjacent blank
lines. -/
theorem noAdj_dropLast :
    ∀ (ls : List Str), noTwoAdjacentBlankLines ls = true →
      noTwoAdjacentBlankLines ls.dropLast = true := by
  intro ls
  induction ls with
  | nil => intro _; rfl
  | cons a t ih =>
      intro h
      cases t with
      | nil => rfl
      | cons b r =>
          have htail := ih (noAdj_cons_tail a (b :: r) h)
          show noTwoAdjacentBlankLines (a :: (b :: r).dropLast) = true
          cases r with
          | nil => rfl
          | cons c s =>
              simp only [noTwoAdjacentBlankLines, Bool.and_eq_true] at h ⊢
              exact ⟨h.1, by simpa using htail⟩

/-- On a list whose blank lines are exactly empty and never adjacent, the
normalization loop is the identity; with a pending streak this additionally
needs a non-blank head. -/
theorem normLoop_id :
    ∀ (ls : List Str), (∀ l ∈ ls, pyStrip l = [] → l = []) →
      noTwoAdjacentBlankLines ls = true →
      normLoop ls 0 = ls ∧ (headNotBlank ls → ∀ k, normLoop ls k = ls) := by
  intro ls
  induction ls with
  | nil => intro _ _; exact ⟨rfl, fun _ _ => rfl⟩
  | cons a t ih =>
      intro hgood hadj
      have hgt : ∀ l ∈ t, pyStrip l = [] → l = [] :=
        fun l hl => hgood l (by simp [hl])
      rcases ih hgt (noAdj_cons_tail a t hadj) with ⟨hid0, hidk⟩
      by_cases ha : pyStrip a = []
      · have hhead : headNotBlank t := noAdj_head_of_blank a t hadj ha
        have hae : a = [] := hgood a (by simp) ha
        constructor
        · show normLoop (a :: t) 0 = a :: t
          unfold normLoop
          rw [if_pos ha, if_pos rfl, hidk hhead 1, hae]
        · intro hh
          exact absurd ha hh
      · constructor
        · show normLoop (a :: t) 0 = a :: t
          unfold normLoop
          rw [if_neg ha, hid0]
        · intro _ k
          show normLoop (a :: t) k = a :: t
          unfold normLoop
          rw [if_neg ha, hid0]

/-- C10 corrected: `normalize_newlines` output never contains two adjacent
blank lines; the function is idempotent on every text whose output does not
end in a newline, and in general a second application differs from the first
only by removing one trailing newline. -/
theorem c10_amended_normalize :
    ∀ t : Str,
      (normalizeNewlines (normalizeNewlines t) = normalizeNewlines t ∨
        normalizeNewlines t = normalizeNewlines (normalizeNewlines t) ++ ['\n']) ∧
      ((normalizeNewlines t).getLast? ≠ some '\n' →
        normalizeNewlines (normalizeNewlines t) = normalizeNewlines t) ∧
      noTwoAdjacentBlankLines (pySplitlines (normalizeNewlines t)) = true := by
  intro t
  set ls := normLoop (pySplitlines t) 0 with hls
  have hnl : ∀ l ∈ ls, ∀ c ∈ l, c ≠ '\n' :=
    normLoop_nlFree (pySplitlines t) 0
      (pySplitlinesAux_nlFree t [] (by simp))
  have hgood : ∀ l ∈ ls, pyStrip l = [] → l = [] :=
    fun l hl => normLoop_blank_eq_nil (pySplitlines t) 0 l hl
  have hadj : noTwoAdjacentBlankLines ls = true := (normLoop_noAdj (pySplitlines t) 0).1
  have hsplit : pySplitlines (normalizeNewlines t) = trimLastEmpty ls := by
    rw [normalizeNewlines, ← hls]
    exact pySplitlines_joinSep ls hnl
  have hnorm2 : normalizeNewlines (normalizeNewlines t)
      = joinSep nl1 (normLoop (trimLastEmpty ls) 0) := by
    conv_lhs => rw [normalizeNewlines, hsplit]
  by_cases hlast : ls.getLast? = some ([] : Str)
  · by_cases hdl : ls.dropLast = []
    · have hone : ls = [[]] := by
        cases hc : ls with
        | nil => rw [hc] at hlast; simp at hlast
        | cons x u =>
            rw [hc] at hdl hlast
            cases u with
            | nil => simp at hlast; simp [hlast]
            | cons y v => simp at hdl
      have hu : normalizeNewlines t = [] := by
        rw [normalizeNewlines, ← hls, hone]; rfl
      have htrim : trimLastEmpty ls = [] := by
        rw [trimLastEmpty, if_pos hlast, hdl]
      have h2 : normalizeNewlines (normalizeNewlines t) = [] := by
        rw [hnorm2, htrim]; rfl
      refine ⟨Or.inl (by rw [h2, hu]), fun _ => by rw [h2, hu], ?_⟩
      rw [hsplit, htrim]; rfl
    · have hdecomp : ls.dropLast ++ [[]] = ls := by
        have hne : ls ≠ [] := by
          intro h; rw [h] at hlast; simp at hlast
        have := List.dropLast_append_getLast hne
        have hgl : ls.getLast hne = [] := by
          have := List.getLast?_eq_getLast ls hne
          rw [hlast] at this
          exact Option.some_inj.mp this.symm
        rw [hgl] at this
        exact this
      have hjoin : normalizeNewlines t = joinSep nl1 ls.dropLast ++ ['\n'] := by
        rw [normalizeNewlines, ← hls]
        conv_lhs => rw [← hdecomp]
        rw [joinSep_append nl1 ls.dropLast [[]] hdl (by simp)]
        simp [joinSep, nl1]
      have hulast : (normalizeNewlines t).getLast? = some '\n' := by
        rw [hjoin, List.getLast?_concat]
      have hgooddl : ∀ l ∈ ls.dropLast, pyStrip l = [] → l = [] :=
        fun l hl => hgood l ((List.dropLast_sublist ls).subset hl)
      have hadjdl := noAdj_dropLast ls hadj
      have htrim : trimLastEmpty ls = ls.dropLast := by
        rw [trimLastEmpty, if_pos hlast]
      have h2 : normalizeNewlines (normalizeNewlines t) = joinSep nl1 ls.dropLast := by
        rw [hnorm2, htrim, (normLoop_id ls.dropLast hgooddl hadjdl).1]
      refine ⟨Or.inr (by rw [h2, hjoin]), ?_, ?_⟩
      · intro hcontra
        exact absurd hulast hcontra
      · rw [hsplit, htrim]
        exact hadjdl
  · have htrim : trimLastEmpty ls = ls := by
      rw [trimLastEmpty, if_neg hlast]
    have h2 : normalizeNewlines (normalizeNewlines t) = normalizeNewlines t := by
      rw [hnorm2, htrim, (normLoop_id ls hgood hadj).1, normalizeNewlines, ← hls]
    refine ⟨Or.inl h2, fun _ => h2, ?_⟩
    rw [hsplit, htrim]
    exact hadj

/-- C10 witness: idempotence at a concrete text whose normalized form does
not end in a newline. -/
theorem c10_amended_witness :
    normalizeNewlines (normalizeNewlines (("a\n\n\nb").toList))
      = normalizeNewlines (("a\n\n\nb").toList) :=
  (c10_amended_normalize (("a\n\n\nb").toList)).2.1 (by decide)

end Capstone
